import Mathlib

/-!
Verification of the temporal sampling and aggregation core of `src/main.py`
(`analyze_demo`).  The Python source works over pandas data frames; here each
frame row becomes a record with `Option` fields for columns that may be absent
or NaN, and the loops of `analyze_demo` become recursive functions threading an
`Option`/result value for the abort paths.  Machine floats appear in the source
only as opaque coordinate values compared for exact equality and tested for
NaN; they are modelled by `Option Int` (`none` = NaN / missing), which carries
exactly the structure the code uses (exact equality and missingness).
-/

namespace NadeStacked

/-- A row of the rounds data frame (`rounds_df`).  Each optional tick column is
`none` when the column is absent for that row or the value is NaN, matching the
`'col' in round_row and not pd.isna(round_row['col'])` tests of the source. -/
structure RoundRow where
  round_num : Int
  freeze_end : Option Int
  startTick : Option Int
  endTick : Option Int
  end_official_tick : Option Int
deriving DecidableEq

/-- A row of the ticks data frame (`ticks_df`).  Coordinates are `Option`
(`none` = NaN), matching the `pd.isna(player_state['X'])` tests. -/
structure TickRow where
  name : String
  X : Option Int
  Y : Option Int
  Z : Option Int
  round_num : Int
  tick : Int
  side : String
deriving DecidableEq

/-- The ticks data frame: its set of columns (checked by the schema guard in
the source) together with its rows. -/
structure TicksTable where
  cols : List String
  rows : List TickRow
deriving DecidableEq

/-- `required_cols = ['name', 'X', 'Y', 'Z', 'round_num', 'tick', 'side']`
(line 126 of the source). -/
def requiredCols : List String :=
  ["name", "X", "Y", "Z", "round_num", "tick", "side"]

/-- `all(col in ticks_df.columns for col in required_cols)` (line 127). -/
def hasRequiredCols (t : TicksTable) : Bool :=
  requiredCols.all (fun c => t.cols.contains c)

/-- Tickrate fallback (lines 21–24): `if tickrate is None: tickrate = 128`. -/
def resolveTickrate (tickrate : Option Int) : Int :=
  match tickrate with
  | none => 128
  | some tr => tr

/-- A time-marker configuration entry (lines 28–32). -/
structure TimeMarker where
  label : String
  seconds_from_start : Int
  display_time : String
deriving DecidableEq

/-- `time_markers_config` (lines 28–32); the `color` field is rendering-only
and dropped. -/
def timeMarkersConfig : List TimeMarker :=
  [⟨"1m48s", 7, "1:48"⟩, ⟨"1m47s", 8, "1:47"⟩, ⟨"1m46s", 9, "1:46"⟩]

/-- `current_offset_ticks = int(seconds_from_start * tickrate)` (line 92).
Both factors are integers, so Python's `int(...)` truncation is the
identity on the exact product. -/
def offsetTicks (seconds_from_start tickrate : Int) : Int :=
  seconds_from_start * tickrate

/-- Lines 121–124: `target_tick = current_round_end_tick - current_offset_ticks`
then `if target_tick < actual_round_start_tick: target_tick =
actual_round_start_tick`. -/
def targetTick (roundStart roundEnd offset : Int) : Int :=
  let t := roundEnd - offset
  if t < roundStart then roundStart else t

/-- Lines 99–106: `actual_round_start_tick` prefers `freeze_end`, else
`start`, else the round is skipped (`none`). -/
def resolveRoundStart (r : RoundRow) : Option Int :=
  match r.freeze_end with
  | some v => some v
  | none => r.startTick

/-- Lines 108–115: `current_round_end_tick` prefers `end`, else
`end_official_tick`, else the round is skipped (`none`). -/
def resolveRoundEnd (r : RoundRow) : Option Int :=
  match r.endTick with
  | some v => some v
  | none => r.end_official_tick

/-- A round contributes samples only when both boundaries resolve. -/
def resolvable (r : RoundRow) : Prop :=
  (resolveRoundStart r).isSome ∧ (resolveRoundEnd r).isSome

instance (r : RoundRow) : Decidable (resolvable r) := by
  unfold resolvable; infer_instance

/-- A resolved sample `(x, y, z, round_num, side)` (line 140). -/
structure Sample where
  x : Int
  y : Int
  z : Int
  round_num : Int
  side : String
deriving DecidableEq

/-- Lines 134–140: a fetched tick row becomes a `(name, sample)` pair unless a
coordinate is missing, in which case the row is dropped (`continue`).  The
sample's `round_num` is the processed round's number, as in the source. -/
def rowToSample (rn : Int) (p : TickRow) : Option (String × Sample) :=
  match p.X, p.Y, p.Z with
  | some x, some y, some z => some (p.name, ⟨x, y, z, rn, p.side⟩)
  | _, _, _ => none

/-- Lines 131–132: `mask = (ticks_df['round_num'] == round_num) &
(ticks_df['tick'] == target_tick)`; `tick_positions = ticks_df[mask]`. -/
def fetchTickRows (t : TicksTable) (rn target : Int) : List TickRow :=
  t.rows.filter (fun p => p.round_num = rn ∧ p.tick = target)

/-- One iteration of the per-round loop (lines 96–140) for a single round:
`none` encodes the schema abort (`return` at line 129), `some []` a skipped or
sample-less round, `some l` the `(name, sample)` pairs appended for it. -/
def roundSamplesChecked (t : TicksTable) (offset : Int) (r : RoundRow) :
    Option (List (String × Sample)) :=
  match resolveRoundStart r, resolveRoundEnd r with
  | some rs, some re =>
      if hasRequiredCols t then
        some ((fetchTickRows t r.round_num (targetTick rs re offset)).filterMap
          (rowToSample r.round_num))
      else none
  | _, _ => some []

/-- The per-round loop (lines 96–140) over a whole segment for one time
marker, producing the flat ordered `(name, sample)` stream; `none` propagates
the schema abort. -/
def markerSamples (t : TicksTable) (offset : Int) :
    List RoundRow → Option (List (String × Sample))
  | [] => some []
  | r :: rest => do
      let s ← roundSamplesChecked t offset r
      let srest ← markerSamples t offset rest
      pure (s ++ srest)

/-- `positions_by_player_for_timestamp.setdefault(name, []).append(sample)`
(line 140): append to the player's list if the key exists, else add a new
binding at the end (Python dicts preserve insertion order). -/
def appendAt (m : List (String × List Sample)) (name : String) (s : Sample) :
    List (String × List Sample) :=
  match m with
  | [] => [(name, [s])]
  | (k, v) :: rest =>
      if k = name then (k, v ++ [s]) :: rest else (k, v) :: appendAt rest name s

/-- Builds the `positions_by_player_for_timestamp` dict from the flat ordered
`(name, sample)` stream of one (segment, marker) pass. -/
def groupByPlayer (l : List (String × Sample)) : List (String × List Sample) :=
  l.foldl (fun m p => appendAt m p.1 p.2) []

/-- One entry of `all_heatmap_data` (lines 142–149); the rendering-only fields
(`display_time`, `seconds_from_start`, `color`) are dropped. -/
structure HeatmapItem where
  range_name : String
  range_label : String
  time_label : String
  positions_by_player : List (String × List Sample)
deriving DecidableEq

/-- Segment partitioning (lines 42–69) expressed on round indices: each entry
is `(name, startIdx, endIdx)` covering indices `[startIdx, endIdx)` of the
ordered round list of length `totalRounds`. -/
def roundRanges (totalRounds : Nat) : List (String × Nat × Nat) :=
  (if 1 ≤ totalRounds then [("first_half", 0, min 12 totalRounds)] else [])
    ++ (if 13 ≤ totalRounds then
          (if 12 < min 24 totalRounds then [("second_half", 12, min 24 totalRounds)] else [])
        else [])
    ++ (if 25 ≤ totalRounds then
          (if 24 < totalRounds then [("overtime", 24, totalRounds)] else [])
        else [])

/-- Segment partitioning (lines 42–69) on the round list itself: each entry is
`(name, label, slice)` where the slice is the `iloc` slice of `rounds_df`. -/
def roundRangesOf (rounds : List RoundRow) : List (String × String × List RoundRow) :=
  let n := rounds.length
  (if 1 ≤ n then
      [("first_half", "Rounds 1-" ++ toString (min 12 n) ++ " (First Half)",
        rounds.take (min 12 n))]
    else [])
    ++ (if 13 ≤ n then
          (if 12 < min 24 n then
              [("second_half",
                "Rounds 13-" ++ toString (min 24 n) ++ " (Second Half)",
                (rounds.drop 12).take (min 24 n - 12))]
            else [])
        else [])
    ++ (if 25 ≤ n then
          (if 24 < n then
              [("overtime", "Rounds 25+ (Overtime)", rounds.drop 24)]
            else [])
        else [])

/-- The inner marker loop (lines 82–149) for one segment: one `HeatmapItem`
per time marker, aborting (`none`) when the schema check fails mid-round. -/
def markersItems (t : TicksTable) (tickrate : Int) (rname rlabel : String)
    (slice : List RoundRow) : List TimeMarker → Option (List HeatmapItem)
  | [] => some []
  | m :: ms => do
      let samples ← markerSamples t (offsetTicks m.seconds_from_start tickrate) slice
      let rest ← markersItems t tickrate rname rlabel slice ms
      pure (⟨rname, rlabel, m.label, groupByPlayer samples⟩ :: rest)

/-- The outer segment loop (lines 74–149); empty slices are skipped
(`continue` at line 80), though the partitioner never produces one. -/
def rangesItems (t : TicksTable) (tickrate : Int) :
    List (String × String × List RoundRow) → Option (List HeatmapItem)
  | [] => some []
  | (rn, rl, slice) :: rest => do
      if slice.isEmpty then rangesItems t tickrate rest
      else
        let items ← markersItems t tickrate rn rl slice timeMarkersConfig
        let restItems ← rangesItems t tickrate rest
        pure (items ++ restItems)

/-- Result of the sampling phase of `analyze_demo`: early return on empty
input tables (lines 34–39), abort on the schema check (line 129), or the
completed `all_heatmap_data` list. -/
inductive AnalyzeResult where
  | emptyInput : AnalyzeResult
  | schemaAbort : AnalyzeResult
  | ok : List HeatmapItem → AnalyzeResult
deriving DecidableEq

/-- The sampling phase of `analyze_demo` (lines 34–149): empty-table guards,
segment partitioning, and the nested segment × marker × round loops. -/
def buildHeatmapData (t : TicksTable) (rounds : List RoundRow) (tickrate : Int) :
    AnalyzeResult :=
  if rounds.isEmpty then .emptyInput
  else if t.rows.isEmpty then .emptyInput
  else
    match rangesItems t tickrate (roundRangesOf rounds) with
    | none => .schemaAbort
    | some items => .ok items

/-- Round re-basing for rendering annotations (lines 207–216 and 271–278):
`adjusted = original - first + 1 if original >= first else "?"`, then for
first/second-half segments values above 12 wrap as `(adjusted - 1) % 12 + 1`.
`none` is the `"?"` marker. -/
def adjustedRoundNum (range_name : String) (firstRound originalRound : Int) :
    Option Int :=
  if originalRound ≥ firstRound then
    let adj := originalRound - firstRound + 1
    if (range_name = "first_half" ∨ range_name = "second_half") ∧ adj > 12 then
      some ((adj - 1) % 12 + 1)
    else
      some adj
  else
    none

/-- An `occurrence_detail` record (lines 395–400). -/
structure Occurrence where
  round : Int
  side : String
  time_label : String
  range_label : String
deriving DecidableEq

/-- Line 395–400: the occurrence record built from one sample of one heatmap
item; `round` is the sample's own `round_num`. -/
def mkOccurrence (s : Sample) (time_label range_label : String) : Occurrence :=
  ⟨s.round_num, s.side, time_label, range_label⟩

/-- Line 394: `freq[pos] = freq.get(pos, 0) + 1` on an insertion-ordered
association list. -/
def bump (m : List ((Int × Int × Int) × Nat)) (p : Int × Int × Int) :
    List ((Int × Int × Int) × Nat) :=
  match m with
  | [] => [(p, 1)]
  | (q, c) :: rest => if q = p then (q, c + 1) :: rest else (q, c) :: bump rest p

/-- Lines 401–403: `details.setdefault-like` append of one occurrence to the
position's list. -/
def addDet (m : List ((Int × Int × Int) × List Occurrence)) (p : Int × Int × Int)
    (o : Occurrence) : List ((Int × Int × Int) × List Occurrence) :=
  match m with
  | [] => [(p, [o])]
  | (q, l) :: rest => if q = p then (q, l ++ [o]) :: rest else (q, l) :: addDet rest p o

/-- `dict.get(key, default)` on an association list. -/
def lookupD {κ α : Type} [DecidableEq κ] (m : List (κ × α)) (k : κ) (d : α) : α :=
  match m with
  | [] => d
  | (q, v) :: rest => if q = k then v else lookupD rest k d

/-- The per-player pair of dicts `combined_positions_frequency[player]` and
`combined_positions_details[player]`. -/
abbrev PlayerMaps : Type :=
  List ((Int × Int × Int) × Nat) × List ((Int × Int × Int) × List Occurrence)

/-- Lines 390–403, one sample: convert the position to an exact-equality key
and update both per-player dicts. -/
def addSampleOcc (pm : PlayerMaps) (s : Sample) (time_label range_label : String) :
    PlayerMaps :=
  let p := (s.x, s.y, s.z)
  (bump pm.1 p, addDet pm.2 p (mkOccurrence s time_label range_label))

/-- The aggregation state: player → its two position dicts, in player
insertion order (both outer dicts get each player key together, lines
386–388). -/
abbrev SummaryState : Type := List (String × PlayerMaps)

/-- Lines 385–403 for one `(player, pos_list)` entry of an item: locate or
append the player's maps and fold its samples through `addSampleOcc`. -/
def updatePlayer (st : SummaryState) (player : String) (samples : List Sample)
    (time_label range_label : String) : SummaryState :=
  match st with
  | [] => [(player, samples.foldl (fun pm s => addSampleOcc pm s time_label range_label)
      (([], []) : PlayerMaps))]
  | (q, pm) :: rest =>
      if q = player then
        (q, samples.foldl (fun pm2 s => addSampleOcc pm2 s time_label range_label) pm) :: rest
      else
        (q, pm) :: updatePlayer rest player samples time_label range_label

/-- Lines 380–403 for one heatmap item. -/
def processItem (st : SummaryState) (item : HeatmapItem) : SummaryState :=
  item.positions_by_player.foldl
    (fun st2 pl => updatePlayer st2 pl.1 pl.2 item.time_label item.range_label) st

/-- Lines 376–403: fold every heatmap item into the aggregation state. -/
def buildSummaryState (items : List HeatmapItem) : SummaryState :=
  items.foldl processItem []

/-- Strict order on the Python sort key `(k['round'], k['time_label'])`
(line 411), lexicographic. -/
def occKeyLt (a b : Occurrence) : Prop :=
  a.round < b.round ∨ (a.round = b.round ∧ a.time_label < b.time_label)

/-- Non-strict order on the Python sort key `(k['round'], k['time_label'])`
(line 411), lexicographic. -/
def occKeyLe (a b : Occurrence) : Prop :=
  a.round < b.round ∨ (a.round = b.round ∧ a.time_label ≤ b.time_label)

instance (a b : Occurrence) : Decidable (occKeyLt a b) := by
  unfold occKeyLt; infer_instance

instance (a b : Occurrence) : Decidable (occKeyLe a b) := by
  unfold occKeyLe; infer_instance

/-- Stable insertion of one occurrence into an already key-sorted list: it
goes before the first element whose key is not strictly below its own. -/
def insertOcc (o : Occurrence) : List Occurrence → List Occurrence
  | [] => [o]
  | x :: xs => if occKeyLt x o then x :: insertOcc o xs else o :: x :: xs

/-- `sorted(occurrence_list, key=lambda k: (k['round'], k['time_label']))`
(line 411): a stable ascending sort by the `(round, time_label)` key. -/
def sortOccurrences (l : List Occurrence) : List Occurrence :=
  l.foldr insertOcc []

/-- One `position_info` entry of the JSON output (lines 413–417). -/
structure PositionInfo where
  position : Int × Int × Int
  count : Nat
  occurrences : List Occurrence
deriving DecidableEq

/-- One player entry of the JSON output (lines 406–419). -/
structure PlayerSummary where
  player : String
  positions : List PositionInfo
deriving DecidableEq

/-- Lines 406–419: the final structured summary, one entry per player in
frequency-dict order, with each position's occurrences sorted by
`(round, time_label)`. -/
def buildJsonOutput (items : List HeatmapItem) : List PlayerSummary :=
  (buildSummaryState items).map (fun pe =>
    ⟨pe.1, pe.2.1.map (fun pc =>
      ⟨pc.1, pc.2, sortOccurrences (lookupD pe.2.2 pc.1 [])⟩)⟩)


/-- Invariant of one player's pair of dicts: the frequency dict has no
duplicate position keys and each position's stored count equals the length of
its occurrence list. -/
abbrev pmInv (pm : PlayerMaps) : Prop :=
  (pm.1.map Prod.fst).Nodup ∧ ∀ p, lookupD pm.1 p 0 = (lookupD pm.2 p []).length

/-- Invariant of the aggregation state: every player entry satisfies
`pmInv`. -/
abbrev stInv (st : SummaryState) : Prop :=
  ∀ e ∈ st, pmInv e.2


/-- The occurrence was built (lines 390–403) from some sample of the item. -/
abbrev occOfItem (item : HeatmapItem) (o : Occurrence) : Prop :=
  ∃ pl ∈ item.positions_by_player, ∃ s ∈ pl.2,
    o = mkOccurrence s item.time_label item.range_label

/-- The occurrence appears in some details list of the aggregation state. -/
abbrev occInState (st : SummaryState) (o : Occurrence) : Prop :=
  ∃ e ∈ st, ∃ pl ∈ e.2.2, o ∈ pl.2

/-! ### Helper lemmas -/

/-- A round with an unresolved boundary pair is skipped: it contributes
`some []`, even before the schema check can run. -/
theorem roundSamplesChecked_unresolvable (t : TicksTable) (off : Int) (r : RoundRow)
    (h : ¬ resolvable r) : roundSamplesChecked t off r = some [] := by
  unfold roundSamplesChecked
  rcases hs : resolveRoundStart r with _ | rs
  · rfl
  · rcases he : resolveRoundEnd r with _ | re
    · rfl
    · exact absurd ⟨by simp [hs], by simp [he]⟩ h

/-- Removing a skipped round from the iteration leaves the marker's sample
stream unchanged. -/
theorem markerSamples_skip (t : TicksTable) (off : Int) (r : RoundRow)
    (h : roundSamplesChecked t off r = some []) (l1 l2 : List RoundRow) :
    markerSamples t off (l1 ++ r :: l2) = markerSamples t off (l1 ++ l2) := by
  induction l1 with
  | nil =>
      simp only [List.nil_append, markerSamples, h]
      cases markerSamples t off l2 <;> rfl
  | cons a as ih =>
      simp only [List.cons_append, markerSamples, List.append_eq] at ih ⊢
      rw [ih]

/-- A strict key comparison implies the non-strict one. -/
theorem occKeyLt_le {a b : Occurrence} (h : occKeyLt a b) : occKeyLe a b := by
  rcases h with h | ⟨h1, h2⟩
  · exact Or.inl h
  · exact Or.inr ⟨h1, le_of_lt h2⟩

theorem occKeyLe_of_not_lt {a b : Occurrence} (h : ¬ occKeyLt a b) : occKeyLe b a := by
  unfold occKeyLt at h
  push_neg at h
  rcases eq_or_lt_of_le h.1 with hr | hr
  · exact Or.inr ⟨hr, h.2 hr.symm⟩
  · exact Or.inl hr

theorem occKeyLe_trans {a b c : Occurrence} (h1 : occKeyLe a b) (h2 : occKeyLe b c) :
    occKeyLe a c := by
  rcases h1 with h1 | ⟨h1, h1'⟩ <;> rcases h2 with h2 | ⟨h2, h2'⟩
  · exact Or.inl (lt_trans h1 h2)
  · exact Or.inl (h2 ▸ h1)
  · exact Or.inl (h1 ▸ h2)
  · exact Or.inr ⟨h1.trans h2, le_trans h1' h2'⟩

theorem mem_insertOcc {y o : Occurrence} {l : List Occurrence} :
    y ∈ insertOcc o l ↔ y = o ∨ y ∈ l := by
  induction l with
  | nil => simp [insertOcc]
  | cons x xs ih =>
      unfold insertOcc
      split
      · simp only [List.mem_cons, ih]
        tauto
      · simp only [List.mem_cons]

theorem insertOcc_perm (o : Occurrence) (l : List Occurrence) :
    (insertOcc o l).Perm (o :: l) := by
  induction l with
  | nil => simp [insertOcc]
  | cons x xs ih =>
      unfold insertOcc
      split
      · exact ((ih.cons x).trans (List.Perm.swap o x xs)).symm.symm
      · exact List.Perm.refl _

theorem pairwise_insertOcc (o : Occurrence) {l : List Occurrence}
    (h : l.Pairwise occKeyLe) : (insertOcc o l).Pairwise occKeyLe := by
  induction l with
  | nil => simp [insertOcc]
  | cons x xs ih =>
      rw [List.pairwise_cons] at h
      obtain ⟨hx, hxs⟩ := h
      unfold insertOcc
      split
      · rename_i hlt
        rw [List.pairwise_cons]
        refine ⟨?_, ih hxs⟩
        intro y hy
        rcases mem_insertOcc.mp hy with hy | hy
        · exact hy ▸ occKeyLt_le hlt
        · exact hx y hy
      · rename_i hnlt
        rw [List.pairwise_cons]
        refine ⟨?_, List.pairwise_cons.mpr ⟨hx, hxs⟩⟩
        intro y hy
        rcases List.mem_cons.mp hy with hy | hy
        · exact hy ▸ occKeyLe_of_not_lt hnlt
        · exact occKeyLe_trans (occKeyLe_of_not_lt hnlt) (hx y hy)

/-- The sorted occurrence list is pairwise ascending in the sort key. -/
theorem sortOccurrences_pairwise (l : List Occurrence) :
    (sortOccurrences l).Pairwise occKeyLe := by
  induction l with
  | nil => simp [sortOccurrences]
  | cons x xs ih =>
      unfold sortOccurrences at ih ⊢
      simp only [List.foldr_cons]
      exact pairwise_insertOcc x ih

/-- Sorting permutes the occurrence list. -/
theorem sortOccurrences_perm (l : List Occurrence) :
    (sortOccurrences l).Perm l := by
  induction l with
  | nil => simp [sortOccurrences]
  | cons x xs ih =>
      unfold sortOccurrences at ih ⊢
      simp only [List.foldr_cons]
      exact (insertOcc_perm x _).trans (ih.cons x)

/-! ### Claim theorems -/

/-- C1: for every round with resolved boundaries and every time marker, the
tick resolver computes `offset_ticks = round(marker.seconds * tickrate)` (for
integer inputs the exact product) and `target_tick = round_end - offset_ticks`,
clamped up to `round_start` when the subtraction lands before it; with
round_start 1000, round_end 2000, tickrate 128 and a 7-second offset the
target is 1104 (no clamping), and with round_end 1050 it is clamped to 1000. -/
theorem tickResolver_targetTick_spec (rs re tickrate seconds : Int) :
    (re - offsetTicks seconds tickrate < rs →
      targetTick rs re (offsetTicks seconds tickrate) = rs)
    ∧ (rs ≤ re - offsetTicks seconds tickrate →
      targetTick rs re (offsetTicks seconds tickrate) = re - seconds * tickrate)
    ∧ targetTick 1000 2000 (offsetTicks 7 128) = 1104
    ∧ targetTick 1000 1050 (offsetTicks 7 128) = 1000 := by
  refine ⟨?_, ?_, by decide, by decide⟩ <;>
    · intro h
      simp only [targetTick, offsetTicks] at *
      split <;> omega

/-- Closed instance of `tickResolver_targetTick_spec` discharging both clamp
hypotheses at the spec's concrete inputs. -/
theorem tickResolver_targetTick_spec_witness :
    targetTick 1000 2000 (offsetTicks 7 128) = 2000 - 7 * 128
    ∧ targetTick 1000 1050 (offsetTicks 7 128) = 1000 :=
  ⟨(tickResolver_targetTick_spec 1000 2000 128 7).2.1 (by decide),
   (tickResolver_targetTick_spec 1000 1050 128 7).1 (by decide)⟩

/-- C3: re-basing a sample's round number `r` against its segment's first
round `F` yields `r - F + 1` when `r ≥ F`, additionally wrapped as
`((r - F + 1 - 1) % 12) + 1` exactly when the segment is first_half or
second_half and the re-based value exceeds 12 (overtime and other segments are
never wrapped); when `r < F` the result is the unknown marker `"?"` (`none`).
Includes the spec's examples for a segment starting at round 5. -/
theorem roundRebasing_spec (range_name : String) (F r : Int) :
    (F ≤ r → ¬(range_name = "first_half" ∨ range_name = "second_half") →
      adjustedRoundNum range_name F r = some (r - F + 1))
    ∧ (F ≤ r → (range_name = "first_half" ∨ range_name = "second_half") →
        12 < r - F + 1 →
      adjustedRoundNum range_name F r = some ((r - F + 1 - 1) % 12 + 1))
    ∧ (F ≤ r → (range_name = "first_half" ∨ range_name = "second_half") →
        r - F + 1 ≤ 12 →
      adjustedRoundNum range_name F r = some (r - F + 1))
    ∧ (r < F → adjustedRoundNum range_name F r = none)
    ∧ adjustedRoundNum "first_half" 5 5 = some 1
    ∧ adjustedRoundNum "first_half" 5 17 = some ((17 - 5 + 1 - 1) % 12 + 1) := by
  refine ⟨?_, ?_, ?_, ?_, by decide, by decide⟩
  · intro h1 h2
    simp only [adjustedRoundNum, if_pos h1]
    rw [if_neg]
    intro hc
    exact h2 hc.1
  · intro h1 h2 h3
    simp only [adjustedRoundNum, if_pos h1]
    rw [if_pos ⟨h2, h3⟩]
  · intro h1 h2 h3
    simp only [adjustedRoundNum, if_pos h1]
    rw [if_neg]
    intro hc
    omega
  · intro h1
    simp only [adjustedRoundNum]
    rw [if_neg]
    omega

/-- Closed instance of `roundRebasing_spec` discharging its hypotheses: the
wrap case at (F, r) = (5, 17) in a first-half segment, the unwrapped overtime
case, and the unknown case. -/
theorem roundRebasing_spec_witness :
    adjustedRoundNum "first_half" 5 17 = some ((17 - 5 + 1 - 1) % 12 + 1)
    ∧ adjustedRoundNum "overtime" 25 40 = some (40 - 25 + 1)
    ∧ adjustedRoundNum "second_half" 13 4 = none :=
  ⟨(roundRebasing_spec "first_half" 5 17).2.1 (by decide) (by decide) (by decide),
   (roundRebasing_spec "overtime" 25 40).1 (by decide) (by decide),
   (roundRebasing_spec "second_half" 13 4).2.2.2.1 (by decide)⟩

/-- C2: for a round list of length N the segment partitioner emits
first_half covering indices [0, min(12,N)) iff N ≥ 1, second_half covering
[12, min(24,N)) iff N ≥ 13 (that range being automatically non-empty then),
and overtime covering [24, N) iff N ≥ 25; no emitted segment has an empty
slice, every index in [0, N) lies in exactly one emitted segment, and the
segments appear in round order. -/
theorem segmentPartitioner_spec (N : Nat) :
    (((("first_half", 0, min 12 N) : String × Nat × Nat) ∈ roundRanges N) ↔ 1 ≤ N)
    ∧ (((("second_half", 12, min 24 N) : String × Nat × Nat) ∈ roundRanges N) ↔ 13 ≤ N)
    ∧ (((("overtime", 24, N) : String × Nat × Nat) ∈ roundRanges N) ↔ 25 ≤ N)
    ∧ (∀ s ∈ roundRanges N, s.2.1 < s.2.2)
    ∧ (∀ i, i < N → ∃! s, s ∈ roundRanges N ∧ s.2.1 ≤ i ∧ i < s.2.2)
    ∧ (roundRanges N).Pairwise (fun a b => a.2.2 ≤ b.2.1) := by
  have h0 : N = 0 ∨ (1 ≤ N ∧ N ≤ 12) ∨ (13 ≤ N ∧ N ≤ 24) ∨ 25 ≤ N := by omega
  rcases h0 with h | ⟨h1, h2⟩ | ⟨h1, h2⟩ | h1
  · subst h
    refine ⟨?_, ?_, ?_, ?_, ?_, ?_⟩ <;> simp [roundRanges]
  · have hr : roundRanges N = [("first_half", 0, min 12 N)] := by
      unfold roundRanges
      rw [if_pos h1, if_neg (by omega), if_neg (by omega)]
      simp
    refine ⟨by simp [hr] <;> omega, by simp [hr] <;> omega, by simp [hr] <;> omega,
      ?_, ?_, by simp [hr]⟩
    · intro s hs
      simp [hr] at hs
      subst hs
      simp <;> omega
    · intro i hi
      refine ⟨("first_half", 0, min 12 N), ⟨by simp [hr], by simp, by simp <;> omega⟩, ?_⟩
      intro s hs
      simp [hr] at hs
      exact hs.1
  · have hr : roundRanges N = [("first_half", 0, min 12 N),
        ("second_half", 12, min 24 N)] := by
      unfold roundRanges
      rw [if_pos (by omega), if_pos h1, if_pos (by omega), if_neg (by omega)]
      simp
    refine ⟨by simp [hr] <;> omega, by simp [hr] <;> omega, by simp [hr] <;> omega,
      ?_, ?_, by simp [hr] <;> omega⟩
    · intro s hs
      simp [hr] at hs
      rcases hs with hs | hs <;> subst hs <;> simp <;> omega
    · intro i hi
      by_cases hi12 : i < 12
      · refine ⟨("first_half", 0, min 12 N), ⟨by simp [hr], by simp, by simp <;> omega⟩, ?_⟩
        intro s hs
        rw [hr] at hs
        simp only [List.mem_cons, List.mem_singleton] at hs
        obtain ⟨hs | hs | hs, hl, hu⟩ := hs
        · subst hs; rfl
        · subst hs; exfalso; simp at hl hu <;> omega
        · simp at hs
      · refine ⟨("second_half", 12, min 24 N),
          ⟨by simp [hr], by simp <;> omega, by simp <;> omega⟩, ?_⟩
        intro s hs
        rw [hr] at hs
        simp only [List.mem_cons, List.mem_singleton] at hs
        obtain ⟨hs | hs | hs, hl, hu⟩ := hs
        · subst hs; exfalso; simp at hl hu <;> omega
        · subst hs; rfl
        · simp at hs
  · have hr : roundRanges N = [("first_half", 0, min 12 N),
        ("second_half", 12, min 24 N), ("overtime", 24, N)] := by
      unfold roundRanges
      rw [if_pos (by omega), if_pos (by omega), if_pos (by omega), if_pos h1,
        if_pos (by omega)]
      simp
    refine ⟨by simp [hr] <;> omega, by simp [hr] <;> omega, by simp [hr] <;> omega,
      ?_, ?_, by simp [hr] <;> omega⟩
    · intro s hs
      simp [hr] at hs
      rcases hs with hs | hs | hs <;> subst hs <;> simp <;> omega
    · intro i hi
      by_cases hi12 : i < 12
      · refine ⟨("first_half", 0, min 12 N), ⟨by simp [hr], by simp, by simp <;> omega⟩, ?_⟩
        intro s hs
        rw [hr] at hs
        simp only [List.mem_cons, List.mem_singleton] at hs
        obtain ⟨hs | hs | hs | hs, hl, hu⟩ := hs
        · subst hs; rfl
        · subst hs; exfalso; simp at hl hu <;> omega
        · subst hs; exfalso; simp at hl hu <;> omega
        · simp at hs
      · by_cases hi24 : i < 24
        · refine ⟨("second_half", 12, min 24 N),
            ⟨by simp [hr], by simp <;> omega, by simp <;> omega⟩, ?_⟩
          intro s hs
          rw [hr] at hs
          simp only [List.mem_cons, List.mem_singleton] at hs
          obtain ⟨hs | hs | hs | hs, hl, hu⟩ := hs
          · subst hs; exfalso; simp at hl hu <;> omega
          · subst hs; rfl
          · subst hs; exfalso; simp at hl hu <;> omega
          · simp at hs
        · refine ⟨("overtime", 24, N),
            ⟨by simp [hr], by simp <;> omega, by simp <;> omega⟩, ?_⟩
          intro s hs
          rw [hr] at hs
          simp only [List.mem_cons, List.mem_singleton] at hs
          obtain ⟨hs | hs | hs | hs, hl, hu⟩ := hs
          · subst hs; exfalso; simp at hl hu <;> omega
          · subst hs; exfalso; simp at hl hu <;> omega
          · subst hs; rfl
          · simp at hs

/-- Closed instance of `segmentPartitioner_spec` at N = 30, i = 27:
overtime is emitted and index 27 lies in exactly one segment. -/
theorem segmentPartitioner_spec_witness :
    ((("overtime", 24, 30) : String × Nat × Nat) ∈ roundRanges 30)
    ∧ (∃! s, s ∈ roundRanges 30 ∧ s.2.1 ≤ 27 ∧ 27 < s.2.2) :=
  ⟨((segmentPartitioner_spec 30).2.2.1).mpr (by decide),
   (segmentPartitioner_spec 30).2.2.2.2.1 27 (by decide)⟩

/-- C6: round_start prefers the freeze-end tick and otherwise the start tick;
round_end prefers the end tick and otherwise the end-official tick; a round
for which either pair is wholly missing is skipped — it contributes no samples
and the remaining rounds of the marker pass are processed unchanged. -/
theorem roundBoundary_resolution_spec (r : RoundRow) (t : TicksTable) (off : Int)
    (l1 l2 : List RoundRow) :
    (∀ v, r.freeze_end = some v → resolveRoundStart r = some v)
    ∧ (r.freeze_end = none → resolveRoundStart r = r.startTick)
    ∧ (∀ v, r.endTick = some v → resolveRoundEnd r = some v)
    ∧ (r.endTick = none → resolveRoundEnd r = r.end_official_tick)
    ∧ (¬ resolvable r →
        markerSamples t off (l1 ++ r :: l2) = markerSamples t off (l1 ++ l2)) := by
  refine ⟨?_, ?_, ?_, ?_, ?_⟩
  · intro v h; simp [resolveRoundStart, h]
  · intro h; simp [resolveRoundStart, h]
  · intro v h; simp [resolveRoundEnd, h]
  · intro h; simp [resolveRoundEnd, h]
  · intro h
    exact markerSamples_skip t off r (roundSamplesChecked_unresolvable t off r h) l1 l2

/-- Closed instance of `roundBoundary_resolution_spec`: freeze-end preference,
start fallback, and the skip of an unresolvable round placed between two
resolvable ones. -/
theorem roundBoundary_resolution_spec_witness :
    resolveRoundStart ⟨1, some 50, some 60, some 900, none⟩ = some 50
    ∧ resolveRoundStart ⟨2, none, some 60, some 900, none⟩ = some 60
    ∧ resolveRoundEnd ⟨3, some 50, none, some 900, some 950⟩ = some 900
    ∧ resolveRoundEnd ⟨4, some 50, none, none, some 950⟩ = some 950
    ∧ markerSamples (⟨requiredCols, []⟩ : TicksTable) 896
        ([⟨1, some 50, none, some 900, none⟩] ++ ⟨2, none, none, none, none⟩ ::
          [⟨3, some 50, none, some 900, none⟩])
      = markerSamples (⟨requiredCols, []⟩ : TicksTable) 896
        ([⟨1, some 50, none, some 900, none⟩] ++ [⟨3, some 50, none, some 900, none⟩]) :=
  ⟨(roundBoundary_resolution_spec ⟨1, some 50, some 60, some 900, none⟩
      ⟨requiredCols, []⟩ 896 [] []).1 50 rfl,
   (roundBoundary_resolution_spec ⟨2, none, some 60, some 900, none⟩
      ⟨requiredCols, []⟩ 896 [] []).2.1 rfl,
   (roundBoundary_resolution_spec ⟨3, some 50, none, some 900, some 950⟩
      ⟨requiredCols, []⟩ 896 [] []).2.2.1 900 rfl,
   (roundBoundary_resolution_spec ⟨4, some 50, none, none, some 950⟩
      ⟨requiredCols, []⟩ 896 [] []).2.2.2.1 rfl,
   (roundBoundary_resolution_spec ⟨2, none, none, none, none⟩
      ⟨requiredCols, []⟩ 896 [⟨1, some 50, none, some 900, none⟩]
      [⟨3, some 50, none, some 900, none⟩]).2.2.2.2 (by decide)⟩

/-- C7: with both boundaries resolved and the schema intact, a tick row
contributes a sample only if its `round_num` equals the round's number and its
`tick` equals `target_tick` exactly; when no row matches exactly the round
contributes zero samples for the marker and processing continues (the result
is `some []`, not the abort). -/
theorem exactTickMatch_spec (t : TicksTable) (off rs re : Int) (r : RoundRow)
    (hs : resolveRoundStart r = some rs) (he : resolveRoundEnd r = some re)
    (hc : hasRequiredCols t = true) :
    ∃ l, roundSamplesChecked t off r = some l
      ∧ (∀ ns ∈ l, ∃ p ∈ t.rows, p.round_num = r.round_num
          ∧ p.tick = targetTick rs re off ∧ rowToSample r.round_num p = some ns)
      ∧ ((∀ p ∈ t.rows, ¬(p.round_num = r.round_num ∧ p.tick = targetTick rs re off)) →
          l = []) := by
  have h1 : roundSamplesChecked t off r
      = some ((fetchTickRows t r.round_num (targetTick rs re off)).filterMap
          (rowToSample r.round_num)) := by
    simp [roundSamplesChecked, hs, he, hc]
  refine ⟨_, h1, ?_, ?_⟩
  · intro ns hns
    simp only [fetchTickRows, List.mem_filterMap, List.mem_filter,
      decide_eq_true_eq] at hns
    obtain ⟨p, ⟨hp, hm1, hm2⟩, hconv⟩ := hns
    exact ⟨p, hp, hm1, hm2, hconv⟩
  · intro hnone
    have hf : fetchTickRows t r.round_num (targetTick rs re off) = [] := by
      unfold fetchTickRows
      rw [List.filter_eq_nil_iff]
      intro p hp
      simpa using hnone p hp
    rw [hf]
    rfl

/-- Closed instance of `exactTickMatch_spec`: a one-row table where the row's
tick misses the target, so the round contributes zero samples. -/
theorem exactTickMatch_spec_witness :
    ∃ l, roundSamplesChecked
        (⟨requiredCols, [⟨"p1", some 1, some 2, some 3, 1, 777, "ct"⟩]⟩ : TicksTable)
        896 ⟨1, some 1000, none, some 2000, none⟩ = some l
      ∧ (∀ ns ∈ l, ∃ p ∈ (⟨requiredCols,
            [⟨"p1", some 1, some 2, some 3, 1, 777, "ct"⟩]⟩ : TicksTable).rows,
          p.round_num = (⟨1, some 1000, none, some 2000, none⟩ : RoundRow).round_num
          ∧ p.tick = targetTick 1000 2000 896
          ∧ rowToSample (⟨1, some 1000, none, some 2000, none⟩ : RoundRow).round_num p
              = some ns)
      ∧ ((∀ p ∈ (⟨requiredCols,
            [⟨"p1", some 1, some 2, some 3, 1, 777, "ct"⟩]⟩ : TicksTable).rows,
          ¬(p.round_num = (⟨1, some 1000, none, some 2000, none⟩ : RoundRow).round_num
            ∧ p.tick = targetTick 1000 2000 896)) → l = []) :=
  exactTickMatch_spec ⟨requiredCols, [⟨"p1", some 1, some 2, some 3, 1, 777, "ct"⟩]⟩
    896 1000 2000 ⟨1, some 1000, none, some 2000, none⟩ rfl rfl (by decide)

/-- C8: a fetched record with a missing X, Y or Z coordinate is discarded and
its removal leaves the other records of the same lookup untouched, while every
remaining record with all three coordinates yields exactly one
`(x, y, z, round_num, side)` sample. -/
theorem missingCoordinate_drop_spec (rn : Int) (rows1 rows2 : List TickRow)
    (bad : TickRow) (hbad : bad.X = none ∨ bad.Y = none ∨ bad.Z = none) :
    (rows1 ++ bad :: rows2).filterMap (rowToSample rn)
      = rows1.filterMap (rowToSample rn) ++ rows2.filterMap (rowToSample rn)
    ∧ (∀ (p : TickRow) (x y z : Int), p.X = some x → p.Y = some y → p.Z = some z →
        rowToSample rn p = some (p.name, ⟨x, y, z, rn, p.side⟩)) := by
  constructor
  · have hb : rowToSample rn bad = none := by
      rcases hX : bad.X with _ | x <;> rcases hY : bad.Y with _ | y <;>
        rcases hZ : bad.Z with _ | z <;>
        simp only [rowToSample, hX, hY, hZ] <;>
        simp [hX, hY, hZ] at hbad
    rw [List.filterMap_append, List.filterMap_cons_none hb]
  · intro p x y z hx hy hz
    simp only [rowToSample, hx, hy, hz]

/-- Closed instance of `missingCoordinate_drop_spec`: a row with a missing Y
is dropped while its neighbours each still yield one sample. -/
theorem missingCoordinate_drop_spec_witness :
    (([⟨"a", some 1, some 2, some 3, 1, 10, "ct"⟩] : List TickRow)
        ++ (⟨"b", some 4, none, some 6, 1, 10, "t"⟩ : TickRow) ::
          [⟨"c", some 7, some 8, some 9, 1, 10, "t"⟩]).filterMap (rowToSample 1)
      = ([⟨"a", some 1, some 2, some 3, 1, 10, "ct"⟩] : List TickRow).filterMap (rowToSample 1)
        ++ ([⟨"c", some 7, some 8, some 9, 1, 10, "t"⟩] : List TickRow).filterMap (rowToSample 1)
    ∧ rowToSample 1 ⟨"c", some 7, some 8, some 9, 1, 10, "t"⟩
        = some ("c", ⟨7, 8, 9, 1, "t"⟩) :=
  ⟨(missingCoordinate_drop_spec 1 [⟨"a", some 1, some 2, some 3, 1, 10, "ct"⟩]
      [⟨"c", some 7, some 8, some 9, 1, 10, "t"⟩]
      ⟨"b", some 4, none, some 6, 1, 10, "t"⟩ (Or.inr (Or.inl rfl))).1,
   (missingCoordinate_drop_spec 1 [] [] ⟨"b", some 4, none, some 6, 1, 10, "t"⟩
      (Or.inr (Or.inl rfl))).2 ⟨"c", some 7, some 8, some 9, 1, 10, "t"⟩ 7 8 9 rfl rfl rfl⟩

/-- C4: the occurrence-detail list of every position entry is sorted
ascending by the key `(round, time_label)` (a permutation of its input, so no
occurrence is lost), and the spec's example sorts the occurrence with round 1
first although its time label "1m48s" is lexically larger.  Occurrence records
in the summary always carry a numeric round (the unknown-round "?" marker
exists only in the rendering annotations), so the claim's clause about a
placeholder for unknown rounds is vacuous here. -/
theorem occurrenceSorting_spec (l : List Occurrence) :
    (sortOccurrences l).Pairwise occKeyLe
    ∧ (sortOccurrences l).Perm l
    ∧ sortOccurrences [⟨3, "t", "1m47s", "L"⟩, ⟨1, "ct", "1m48s", "L"⟩]
        = [⟨1, "ct", "1m48s", "L"⟩, ⟨3, "t", "1m47s", "L"⟩] :=
  ⟨sortOccurrences_pairwise l, sortOccurrences_perm l, by decide⟩

/-! ### Abort-path lemmas for the schema check -/


theorem roundSamplesChecked_none_iff (t : TicksTable) (off : Int) (r : RoundRow)
    (hc : hasRequiredCols t = false) :
    (roundSamplesChecked t off r = none ↔ resolvable r) := by
  unfold roundSamplesChecked
  rcases hs : resolveRoundStart r with _ | rs
  · simp [resolvable, hs]
  · rcases he : resolveRoundEnd r with _ | re
    · simp [resolvable, hs, he]
    · simp [resolvable, hs, he, hc]

theorem markerSamples_none_iff (t : TicksTable) (off : Int)
    (hc : hasRequiredCols t = false) (rounds : List RoundRow) :
    (markerSamples t off rounds = none ↔ ∃ r ∈ rounds, resolvable r) := by
  induction rounds with
  | nil => simp [markerSamples]
  | cons r rest ih =>
      have hcons : markerSamples t off (r :: rest)
          = (roundSamplesChecked t off r).bind (fun s =>
              (markerSamples t off rest).bind (fun srest => some (s ++ srest))) := rfl
      rw [hcons]
      rcases hrc : roundSamplesChecked t off r with _ | s
      · simp only [Option.none_bind]
        constructor
        · intro _
          exact ⟨r, List.mem_cons_self r rest,
            (roundSamplesChecked_none_iff t off r hc).mp hrc⟩
        · intro _; trivial
      · have hnr : ¬ resolvable r := by
          intro hres
          rw [← roundSamplesChecked_none_iff t off r hc, hrc] at hres
          exact Option.noConfusion hres
        simp only [Option.some_bind]
        rcases hrest : markerSamples t off rest with _ | srest
        · rw [hrest] at ih
          simp only [Option.none_bind]
          constructor
          · intro _
            obtain ⟨r2, hr2, hres⟩ := ih.mp rfl
            exact ⟨r2, List.mem_cons_of_mem r hr2, hres⟩
          · intro _; trivial
        · rw [hrest] at ih
          simp only [Option.some_bind]
          constructor
          · intro h; exact Option.noConfusion h
          · rintro ⟨r2, hr2, hres⟩
            rcases List.mem_cons.mp hr2 with h | h
            · exact absurd (h ▸ hres) hnr
            · exact absurd (ih.mpr ⟨r2, h, hres⟩) (by simp)

theorem markerSamples_isSome_of_cols (t : TicksTable) (off : Int)
    (hc : hasRequiredCols t = true) (rounds : List RoundRow) :
    (markerSamples t off rounds).isSome := by
  induction rounds with
  | nil => simp [markerSamples]
  | cons r rest ih =>
      have hr : (roundSamplesChecked t off r).isSome := by
        unfold roundSamplesChecked
        rcases resolveRoundStart r with _ | rs
        · simp
        · rcases resolveRoundEnd r with _ | re <;> simp [hc]
      rcases hx : roundSamplesChecked t off r with _ | s
      · rw [hx] at hr; simp at hr
      · rcases hy : markerSamples t off rest with _ | srest
        · rw [hy] at ih; simp at ih
        · simp [markerSamples, hx, hy]

theorem markersItems_none_iff (t : TicksTable) (tr : Int) (rname rlabel : String)
    (slice : List RoundRow) (hc : hasRequiredCols t = false) (m : TimeMarker)
    (ms : List TimeMarker) :
    (markersItems t tr rname rlabel slice (m :: ms) = none ↔
      ∃ r ∈ slice, resolvable r) := by
  induction ms generalizing m with
  | nil =>
      have hcons : markersItems t tr rname rlabel slice [m]
          = (markerSamples t (offsetTicks m.seconds_from_start tr) slice).bind
              (fun samples => some [⟨rname, rlabel, m.label, groupByPlayer samples⟩]) := rfl
      rw [hcons]
      rcases hms : markerSamples t (offsetTicks m.seconds_from_start tr) slice with _ | v
      · simp only [Option.none_bind]
        constructor
        · intro _
          exact (markerSamples_none_iff t _ hc slice).mp hms
        · intro _; trivial
      · simp only [Option.some_bind]
        constructor
        · intro h; exact Option.noConfusion h
        · intro hex
          rw [← markerSamples_none_iff t (offsetTicks m.seconds_from_start tr) hc slice,
            hms] at hex
          exact Option.noConfusion hex
  | cons m2 ms2 ih =>
      have hcons : markersItems t tr rname rlabel slice (m :: m2 :: ms2)
          = (markerSamples t (offsetTicks m.seconds_from_start tr) slice).bind
              (fun samples => (markersItems t tr rname rlabel slice (m2 :: ms2)).bind
                (fun rest => some (⟨rname, rlabel, m.label, groupByPlayer samples⟩ :: rest))) := rfl
      rw [hcons]
      rcases hms : markerSamples t (offsetTicks m.seconds_from_start tr) slice with _ | v
      · simp only [Option.none_bind]
        constructor
        · intro _
          exact (markerSamples_none_iff t _ hc slice).mp hms
        · intro _; trivial
      · simp only [Option.some_bind]
        rcases hrest : markersItems t tr rname rlabel slice (m2 :: ms2) with _ | rest
        · have ih2 := ih m2
          rw [hrest] at ih2
          simp only [Option.none_bind]
          constructor
          · intro _
            exact ih2.mp rfl
          · intro _; trivial
        · have ih2 := ih m2
          rw [hrest] at ih2
          simp only [Option.some_bind]
          constructor
          · intro h; exact Option.noConfusion h
          · intro hex
            exact absurd (ih2.mpr hex) (by simp)

theorem markersItems_isSome_of_cols (t : TicksTable) (tr : Int) (rname rlabel : String)
    (slice : List RoundRow) (hc : hasRequiredCols t = true) (ms : List TimeMarker) :
    (markersItems t tr rname rlabel slice ms).isSome := by
  induction ms with
  | nil => simp [markersItems]
  | cons m ms2 ih =>
      have hcons : markersItems t tr rname rlabel slice (m :: ms2)
          = (markerSamples t (offsetTicks m.seconds_from_start tr) slice).bind
              (fun samples => (markersItems t tr rname rlabel slice ms2).bind
                (fun rest => some (⟨rname, rlabel, m.label, groupByPlayer samples⟩ :: rest))) := rfl
      rw [hcons]
      rcases hms : markerSamples t (offsetTicks m.seconds_from_start tr) slice with _ | v
      · have h2 := markerSamples_isSome_of_cols t (offsetTicks m.seconds_from_start tr) hc slice
        rw [hms] at h2
        simp at h2
      · rcases hrest : markersItems t tr rname rlabel slice ms2 with _ | rest
        · rw [hrest] at ih
          simp at ih
        · simp

theorem rangesItems_none_iff (t : TicksTable) (tr : Int)
    (hc : hasRequiredCols t = false) (ranges : List (String × String × List RoundRow)) :
    (rangesItems t tr ranges = none ↔ ∃ e ∈ ranges, ∃ r ∈ e.2.2, resolvable r) := by
  induction ranges with
  | nil => simp [rangesItems]
  | cons e rest ih =>
      obtain ⟨rn, rl, slice⟩ := e
      rcases slice with _ | ⟨r0, slice0⟩
      · have hcons : rangesItems t tr ((rn, rl, ([] : List RoundRow)) :: rest)
            = rangesItems t tr rest := rfl
        rw [hcons, ih]
        simp
      · have hcons : rangesItems t tr ((rn, rl, r0 :: slice0) :: rest)
            = (markersItems t tr rn rl (r0 :: slice0) timeMarkersConfig).bind
                (fun items => (rangesItems t tr rest).bind
                  (fun restItems => some (items ++ restItems))) := rfl
        rw [hcons]
        have hiff : markersItems t tr rn rl (r0 :: slice0) timeMarkersConfig = none ↔
            ∃ r ∈ r0 :: slice0, resolvable r :=
          markersItems_none_iff t tr rn rl (r0 :: slice0) hc
            ⟨"1m48s", 7, "1:48"⟩ [⟨"1m47s", 8, "1:47"⟩, ⟨"1m46s", 9, "1:46"⟩]
        rcases hmi : markersItems t tr rn rl (r0 :: slice0) timeMarkersConfig with _ | items
        · simp only [Option.none_bind]
          constructor
          · intro _
            exact ⟨(rn, rl, r0 :: slice0), List.mem_cons_self _ _, hiff.mp hmi⟩
          · intro _; trivial
        · simp only [Option.some_bind]
          have hnex : ¬ ∃ r ∈ r0 :: slice0, resolvable r := by
            intro hex
            have h3 := hiff.mpr hex
            rw [hmi] at h3
            exact Option.noConfusion h3
          rcases hrest : rangesItems t tr rest with _ | restItems
          · rw [hrest] at ih
            simp only [Option.none_bind]
            constructor
            · intro _
              obtain ⟨e2, he2, hex⟩ := ih.mp rfl
              exact ⟨e2, List.mem_cons_of_mem _ he2, hex⟩
            · intro _; trivial
          · rw [hrest] at ih
            simp only [Option.some_bind]
            constructor
            · intro h; exact Option.noConfusion h
            · rintro ⟨e2, he2, hex⟩
              rcases List.mem_cons.mp he2 with h | h
              · subst h
                exact absurd hex hnex
              · exact absurd (ih.mpr ⟨e2, h, hex⟩) (by simp)

theorem rangesItems_isSome_of_cols (t : TicksTable) (tr : Int)
    (hc : hasRequiredCols t = true) (ranges : List (String × String × List RoundRow)) :
    (rangesItems t tr ranges).isSome := by
  induction ranges with
  | nil => simp [rangesItems]
  | cons e rest ih =>
      obtain ⟨rn, rl, slice⟩ := e
      rcases slice with _ | ⟨r0, slice0⟩
      · have hcons : rangesItems t tr ((rn, rl, ([] : List RoundRow)) :: rest)
            = rangesItems t tr rest := rfl
        rw [hcons]
        exact ih
      · have hcons : rangesItems t tr ((rn, rl, r0 :: slice0) :: rest)
            = (markersItems t tr rn rl (r0 :: slice0) timeMarkersConfig).bind
                (fun items => (rangesItems t tr rest).bind
                  (fun restItems => some (items ++ restItems))) := rfl
        rw [hcons]
        rcases hmi : markersItems t tr rn rl (r0 :: slice0) timeMarkersConfig with _ | items
        · have h2 := markersItems_isSome_of_cols t tr rn rl (r0 :: slice0) hc timeMarkersConfig
          rw [hmi] at h2
          simp at h2
        · rcases hrest : rangesItems t tr rest with _ | restItems
          · rw [hrest] at ih
            simp at ih
          · simp


theorem exists_mem_slices_iff (rounds : List RoundRow) (r : RoundRow) :
    (∃ e ∈ roundRangesOf rounds, r ∈ e.2.2)
      ↔ ∃ sl ∈ (roundRangesOf rounds).map (fun e => e.2.2), r ∈ sl := by
  constructor
  · rintro ⟨e, he, hmem⟩
    exact ⟨e.2.2, List.mem_map_of_mem _ he, hmem⟩
  · rintro ⟨sl, hsl, hmem⟩
    obtain ⟨e, he, rfl⟩ := List.mem_map.mp hsl
    exact ⟨e, he, hmem⟩

theorem mem_roundRangesOf (rounds : List RoundRow) (r : RoundRow) :
    (∃ e ∈ roundRangesOf rounds, r ∈ e.2.2) ↔ r ∈ rounds := by
  rw [exists_mem_slices_iff]
  have h0 : rounds.length = 0 ∨ (1 ≤ rounds.length ∧ rounds.length ≤ 12)
      ∨ (13 ≤ rounds.length ∧ rounds.length ≤ 24) ∨ 25 ≤ rounds.length := by omega
  rcases h0 with h | ⟨h1, h2⟩ | ⟨h1, h2⟩ | h1
  · rw [List.length_eq_zero] at h
    subst h
    simp [roundRangesOf]
  · have hr : (roundRangesOf rounds).map (fun e => e.2.2)
        = [rounds.take (min 12 rounds.length)] := by
      simp only [roundRangesOf]
      rw [if_pos h1, if_neg (by omega), if_neg (by omega)]
      simp
    rw [hr]
    have hmin : min 12 rounds.length = rounds.length := by omega
    rw [hmin, List.take_length]
    simp
  · have hr : (roundRangesOf rounds).map (fun e => e.2.2)
        = [rounds.take 12, rounds.drop 12] := by
      simp only [roundRangesOf]
      rw [if_pos (by omega), if_pos (by omega), if_pos (by omega), if_neg (by omega)]
      have hmin12 : min 12 rounds.length = 12 := by omega
      have hmin24 : min 24 rounds.length = rounds.length := by omega
      rw [hmin12, hmin24]
      have hdrop : (rounds.drop 12).take (rounds.length - 12) = rounds.drop 12 :=
        List.take_of_length_le (by simp)
      rw [hdrop]
      simp
    rw [hr]
    simp only [List.mem_cons, List.not_mem_nil, or_false]
    constructor
    · rintro ⟨sl, hsl, hmem⟩
      rcases hsl with rfl | rfl
      · exact List.mem_of_mem_take hmem
      · exact List.mem_of_mem_drop hmem
    · intro hmem
      conv at hmem => rw [← List.take_append_drop 12 rounds]
      rcases List.mem_append.mp hmem with hm | hm
      · exact ⟨_, Or.inl rfl, hm⟩
      · exact ⟨_, Or.inr rfl, hm⟩
  · have hr : (roundRangesOf rounds).map (fun e => e.2.2)
        = [rounds.take 12, (rounds.drop 12).take 12, rounds.drop 24] := by
      simp only [roundRangesOf]
      rw [if_pos (by omega), if_pos (by omega), if_pos (by omega), if_pos (by omega),
        if_pos (by omega)]
      have hmin12 : min 12 rounds.length = 12 := by omega
      have hmin24 : min 24 rounds.length = 24 := by omega
      rw [hmin12, hmin24]
      have h2412 : (24 : Nat) - 12 = 12 := rfl
      rw [h2412]
      simp
    rw [hr]
    simp only [List.mem_cons, List.not_mem_nil, or_false]
    constructor
    · rintro ⟨sl, hsl, hmem⟩
      rcases hsl with rfl | rfl | rfl
      · exact List.mem_of_mem_take hmem
      · exact List.mem_of_mem_drop (List.mem_of_mem_take hmem)
      · exact List.mem_of_mem_drop hmem
    · intro hmem
      conv at hmem => rw [← List.take_append_drop 12 rounds,
        ← List.take_append_drop 12 (rounds.drop 12)]
      rcases List.mem_append.mp hmem with hm | hm
      · exact ⟨_, Or.inl rfl, hm⟩
      · rcases List.mem_append.mp hm with hm2 | hm2
        · exact ⟨_, Or.inr (Or.inl rfl), hm2⟩
        · have h2424 : (12 : Nat) + 12 = 24 := rfl
          rw [List.drop_drop, h2424] at hm2
          exact ⟨_, Or.inr (Or.inr rfl), hm2⟩


/-- C5 (amended): with non-empty round and tick tables, the run aborts with no
output if and only if the tick table lacks a required field AND at least one
round resolves both of its boundaries — the per-round schema check (line 127,
inside the round loop) is only reached for rounds that resolve, so a missing
field in a run whose rounds are all skipped goes undetected and the run
completes, producing an (empty) summary. -/
theorem schemaError_abort_spec (t : TicksTable) (rounds : List RoundRow) (tr : Int)
    (h1 : rounds ≠ []) (h2 : t.rows ≠ []) :
    buildHeatmapData t rounds tr = AnalyzeResult.schemaAbort ↔
      (hasRequiredCols t = false ∧ ∃ r ∈ rounds, resolvable r) := by
  have hbridge : (∃ e ∈ roundRangesOf rounds, ∃ r ∈ e.2.2, resolvable r)
      ↔ (∃ r ∈ rounds, resolvable r) := by
    constructor
    · rintro ⟨e, he, r, hr, hres⟩
      exact ⟨r, (mem_roundRangesOf rounds r).mp ⟨e, he, hr⟩, hres⟩
    · rintro ⟨r, hr, hres⟩
      obtain ⟨e, he, hmem⟩ := (mem_roundRangesOf rounds r).mpr hr
      exact ⟨e, he, r, hmem, hres⟩
  unfold buildHeatmapData
  rw [if_neg (by simpa using h1), if_neg (by simpa using h2)]
  cases hc : hasRequiredCols t
  · rcases hri : rangesItems t tr (roundRangesOf rounds) with _ | items
    · constructor
      · intro _
        exact ⟨rfl, hbridge.mp ((rangesItems_none_iff t tr hc (roundRangesOf rounds)).mp hri)⟩
      · intro _; rfl
    · constructor
      · intro h; exact AnalyzeResult.noConfusion h
      · rintro ⟨-, hex⟩
        have hn := (rangesItems_none_iff t tr hc (roundRangesOf rounds)).mpr (hbridge.mpr hex)
        rw [hri] at hn
        exact Option.noConfusion hn
  · rcases hri : rangesItems t tr (roundRangesOf rounds) with _ | items
    · have hsome := rangesItems_isSome_of_cols t tr hc (roundRangesOf rounds)
      rw [hri] at hsome
      simp at hsome
    · constructor
      · intro h; exact AnalyzeResult.noConfusion h
      · rintro ⟨hfalse, -⟩
        simp [hc] at hfalse

/-- Closed instance of `schemaError_abort_spec`: a table missing the `side`
column together with one resolvable round does abort. -/
theorem schemaError_abort_spec_witness :
    buildHeatmapData
        ⟨["name", "X", "Y", "Z", "round_num", "tick"],
          [⟨"p1", some 1, some 2, some 3, 1, 500, "ct"⟩]⟩
        [⟨1, some 1000, none, some 2000, none⟩] 128 = AnalyzeResult.schemaAbort :=
  (schemaError_abort_spec
      ⟨["name", "X", "Y", "Z", "round_num", "tick"],
        [⟨"p1", some 1, some 2, some 3, 1, 500, "ct"⟩]⟩
      [⟨1, some 1000, none, some 2000, none⟩] 128 (by decide) (by decide)).mpr
    ⟨by decide, ⟨⟨1, some 1000, none, some 2000, none⟩, by decide, by decide⟩⟩

/-- Counterexample to C5 as stated: the tick table lacks the required `side`
column, yet because the single round resolves neither boundary the schema
check is never reached — the run does not abort, completing with a summary
instead of producing no output. -/
theorem schemaError_abort_counterexample :
    hasRequiredCols ⟨["name", "X", "Y", "Z", "round_num", "tick"],
        [⟨"p1", some 1, some 2, some 3, 1, 500, "ct"⟩]⟩ = false
    ∧ buildHeatmapData
        ⟨["name", "X", "Y", "Z", "round_num", "tick"],
          [⟨"p1", some 1, some 2, some 3, 1, 500, "ct"⟩]⟩
        [⟨1, none, none, none, none⟩] 128 ≠ AnalyzeResult.schemaAbort := by
  constructor
  · decide
  · decide


/-! ### Aggregation-state lemmas -/


/-- Projection equations for `addSampleOcc`. -/
theorem addSampleOcc_fst (pm : PlayerMaps) (s : Sample) (tl rl : String) :
    (addSampleOcc pm s tl rl).1 = bump pm.1 (s.x, s.y, s.z) := rfl

theorem addSampleOcc_snd (pm : PlayerMaps) (s : Sample) (tl rl : String) :
    (addSampleOcc pm s tl rl).2 = addDet pm.2 (s.x, s.y, s.z) (mkOccurrence s tl rl) := rfl

theorem lookupD_bump_self (m : List ((Int × Int × Int) × Nat)) (p : Int × Int × Int) :
    lookupD (bump m p) p 0 = lookupD m p 0 + 1 := by
  induction m with
  | nil => simp [bump, lookupD]
  | cons e rest ih =>
      obtain ⟨q, c⟩ := e
      by_cases h : q = p
      · subst h
        simp [bump, lookupD]
      · simp [bump, lookupD, h, ih]

theorem lookupD_bump_ne (m : List ((Int × Int × Int) × Nat)) (p q : Int × Int × Int)
    (h : q ≠ p) : lookupD (bump m p) q 0 = lookupD m q 0 := by
  induction m with
  | nil => simp [bump, lookupD, Ne.symm h]
  | cons e rest ih =>
      obtain ⟨q2, c⟩ := e
      by_cases h2 : q2 = p
      · subst h2
        simp [bump, lookupD, Ne.symm h]
      · by_cases h3 : q2 = q <;> simp [bump, lookupD, h2, h3, h, ih]

theorem lookupD_addDet_self (m : List ((Int × Int × Int) × List Occurrence))
    (p : Int × Int × Int) (o : Occurrence) :
    lookupD (addDet m p o) p [] = lookupD m p [] ++ [o] := by
  induction m with
  | nil => simp [addDet, lookupD]
  | cons e rest ih =>
      obtain ⟨q, l⟩ := e
      by_cases h : q = p
      · subst h
        simp [addDet, lookupD]
      · simp [addDet, lookupD, h, ih]

theorem lookupD_addDet_ne (m : List ((Int × Int × Int) × List Occurrence))
    (p q : Int × Int × Int) (o : Occurrence) (h : q ≠ p) :
    lookupD (addDet m p o) q [] = lookupD m q [] := by
  induction m with
  | nil => simp [addDet, lookupD, Ne.symm h]
  | cons e rest ih =>
      obtain ⟨q2, l⟩ := e
      by_cases h2 : q2 = p
      · subst h2
        simp [addDet, lookupD, Ne.symm h]
      · by_cases h3 : q2 = q <;> simp [addDet, lookupD, h2, h3, h, ih]

theorem map_fst_bump (m : List ((Int × Int × Int) × Nat)) (p : Int × Int × Int) :
    (bump m p).map Prod.fst =
      if p ∈ m.map Prod.fst then m.map Prod.fst else m.map Prod.fst ++ [p] := by
  induction m with
  | nil => simp [bump]
  | cons e rest ih =>
      obtain ⟨q, c⟩ := e
      by_cases h : q = p
      · subst h
        rw [if_pos (by simp)]
        simp [bump]
      · have hmem : (p ∈ ((q, c) :: rest).map Prod.fst) ↔ p ∈ rest.map Prod.fst := by
          simp [Ne.symm h]
        by_cases h2 : p ∈ rest.map Prod.fst
        · rw [if_pos (hmem.mpr h2)]
          simp [bump, h, ih, h2]
        · rw [if_neg (fun hx => h2 (hmem.mp hx))]
          simp [bump, h, ih, h2]

theorem nodup_fst_bump (m : List ((Int × Int × Int) × Nat)) (p : Int × Int × Int)
    (h : (m.map Prod.fst).Nodup) : ((bump m p).map Prod.fst).Nodup := by
  rw [map_fst_bump]
  split_ifs with h2
  · exact h
  · rw [List.nodup_append]
    refine ⟨h, List.nodup_singleton p, ?_⟩
    intro a ha hpa
    simp at hpa
    subst hpa
    exact h2 ha

theorem pmInv_addSampleOcc (pm : PlayerMaps) (s : Sample) (tl rl : String)
    (h : pmInv pm) : pmInv (addSampleOcc pm s tl rl) := by
  obtain ⟨hnd, hcnt⟩ := h
  constructor
  · exact nodup_fst_bump pm.1 _ hnd
  · intro p
    rw [addSampleOcc_fst, addSampleOcc_snd]
    by_cases hp : p = (s.x, s.y, s.z)
    · subst hp
      rw [lookupD_bump_self, lookupD_addDet_self]
      simp [hcnt]
    · rw [lookupD_bump_ne _ _ _ hp, lookupD_addDet_ne _ _ _ _ hp]
      exact hcnt p

theorem pmInv_empty : pmInv (([], []) : PlayerMaps) :=
  ⟨List.nodup_nil, fun _ => rfl⟩

theorem pmInv_foldl (samples : List Sample) (tl rl : String) (pm : PlayerMaps)
    (h : pmInv pm) :
    pmInv (samples.foldl (fun pm2 s => addSampleOcc pm2 s tl rl) pm) := by
  induction samples generalizing pm with
  | nil => exact h
  | cons s rest ih => exact ih _ (pmInv_addSampleOcc pm s tl rl h)

theorem stInv_updatePlayer (st : SummaryState) (player : String)
    (samples : List Sample) (tl rl : String) (h : stInv st) :
    stInv (updatePlayer st player samples tl rl) := by
  induction st with
  | nil =>
      intro e he
      simp only [updatePlayer, List.mem_singleton] at he
      subst he
      exact pmInv_foldl samples tl rl ([], []) pmInv_empty
  | cons e0 rest ih =>
      obtain ⟨q, pm⟩ := e0
      by_cases hq : q = player
      · subst hq
        rw [show updatePlayer ((q, pm) :: rest) q samples tl rl
            = (q, samples.foldl (fun pm2 s => addSampleOcc pm2 s tl rl) pm) :: rest from by
          simp [updatePlayer]]
        intro e he
        rcases List.mem_cons.mp he with he | he
        · subst he
          exact pmInv_foldl samples tl rl pm (h (q, pm) (List.mem_cons_self _ _))
        · exact h e (List.mem_cons_of_mem _ he)
      · rw [show updatePlayer ((q, pm) :: rest) player samples tl rl
            = (q, pm) :: updatePlayer rest player samples tl rl from by
          simp [updatePlayer, hq]]
        intro e he
        rcases List.mem_cons.mp he with he | he
        · subst he
          exact h (q, pm) (List.mem_cons_self _ _)
        · exact ih (fun e2 he2 => h e2 (List.mem_cons_of_mem _ he2)) e he

theorem stInv_foldl_players (pls : List (String × List Sample)) (tl rl : String)
    (st : SummaryState) (h : stInv st) :
    stInv (pls.foldl (fun st2 pl => updatePlayer st2 pl.1 pl.2 tl rl) st) := by
  induction pls generalizing st with
  | nil => exact h
  | cons pl rest ih => exact ih _ (stInv_updatePlayer st pl.1 pl.2 tl rl h)

theorem stInv_buildSummaryState (items : List HeatmapItem) :
    stInv (buildSummaryState items) := by
  have hgen : ∀ (its : List HeatmapItem) (st : SummaryState), stInv st →
      stInv (its.foldl processItem st) := by
    intro its
    induction its with
    | nil => exact fun st hst => hst
    | cons it rest ih =>
        intro st hst
        exact ih _ (stInv_foldl_players it.positions_by_player _ _ st hst)
  exact hgen items [] (fun e he => absurd he (List.not_mem_nil e))

theorem lookupD_eq_of_mem_nodup {m : List ((Int × Int × Int) × Nat)}
    (hnd : (m.map Prod.fst).Nodup) {p : Int × Int × Int} {c : Nat}
    (h : (p, c) ∈ m) : lookupD m p 0 = c := by
  induction m with
  | nil => simp at h
  | cons e rest ih =>
      obtain ⟨q, v⟩ := e
      rw [List.map_cons, List.nodup_cons] at hnd
      rcases List.mem_cons.mp h with he | he
      · injection he with h1 h2
        subst h1
        subst h2
        simp [lookupD]
      · have hq : q ≠ p := by
          intro hqp
          subst hqp
          exact hnd.1 (List.mem_map.mpr ⟨(q, c), he, rfl⟩)
        simp only [lookupD, if_neg hq]
        exact ih hnd.2 he


/-- C9: in the structured summary, every position entry's stored count equals
the length of its occurrence list — each sample increments the count by one
and appends exactly one occurrence record, and the final sort permutes the
list without changing its length. -/
theorem summaryCount_spec (items : List HeatmapItem) :
    ∀ ps ∈ buildJsonOutput items, ∀ pi ∈ ps.positions, pi.count = pi.occurrences.length := by
  intro ps hps pi hpi
  unfold buildJsonOutput at hps
  obtain ⟨pe, hpe, rfl⟩ := List.mem_map.mp hps
  obtain ⟨pc, hpc, rfl⟩ := List.mem_map.mp hpi
  obtain ⟨hnd, hcnt⟩ := stInv_buildSummaryState items pe hpe
  show pc.2 = (sortOccurrences (lookupD pe.2.2 pc.1 [])).length
  rw [(sortOccurrences_perm (lookupD pe.2.2 pc.1 [])).length_eq]
  rw [← hcnt pc.1]
  exact (lookupD_eq_of_mem_nodup hnd hpc).symm

/-- Closed instance of `summaryCount_spec`: one player hitting one position
twice yields count 2 and a two-element occurrence list. -/
theorem summaryCount_spec_witness :
    (⟨(1, 2, 3), 2, [⟨5, "ct", "1m48s", "L"⟩, ⟨7, "ct", "1m48s", "L"⟩]⟩ : PositionInfo).count
      = (⟨(1, 2, 3), 2,
          [⟨5, "ct", "1m48s", "L"⟩, ⟨7, "ct", "1m48s", "L"⟩]⟩ : PositionInfo).occurrences.length :=
  summaryCount_spec
    [⟨"first_half", "L", "1m48s", [("p1", [⟨1, 2, 3, 5, "ct"⟩, ⟨1, 2, 3, 7, "ct"⟩])]⟩]
    ⟨"p1", [⟨(1, 2, 3), 2, [⟨5, "ct", "1m48s", "L"⟩, ⟨7, "ct", "1m48s", "L"⟩]⟩]⟩ (by decide)
    ⟨(1, 2, 3), 2, [⟨5, "ct", "1m48s", "L"⟩, ⟨7, "ct", "1m48s", "L"⟩]⟩ (by decide)


/-! ### Occurrence-provenance lemmas -/

theorem occ_addDet {m : List ((Int × Int × Int) × List Occurrence)}
    {p : Int × Int × Int} {o2 o : Occurrence} :
    (∃ pl ∈ addDet m p o2, o ∈ pl.2) → (∃ pl ∈ m, o ∈ pl.2) ∨ o = o2 := by
  induction m with
  | nil =>
      rintro ⟨pl, hpl, ho⟩
      simp only [addDet, List.mem_singleton] at hpl
      subst hpl
      simp only [List.mem_singleton] at ho
      exact Or.inr ho
  | cons e rest ih =>
      obtain ⟨q, l⟩ := e
      by_cases hq : q = p
      · subst hq
        have heq : addDet ((q, l) :: rest) q o2 = (q, l ++ [o2]) :: rest := by
          simp [addDet]
        rw [heq]
        rintro ⟨pl, hpl, ho⟩
        rcases List.mem_cons.mp hpl with rfl | hpl
        · rcases List.mem_append.mp ho with h | h
          · exact Or.inl ⟨(q, l), List.mem_cons_self _ _, h⟩
          · simp only [List.mem_singleton] at h
            exact Or.inr h
        · exact Or.inl ⟨pl, List.mem_cons_of_mem _ hpl, ho⟩
      · have heq : addDet ((q, l) :: rest) p o2 = (q, l) :: addDet rest p o2 := by
          simp [addDet, hq]
        rw [heq]
        rintro ⟨pl, hpl, ho⟩
        rcases List.mem_cons.mp hpl with rfl | hpl
        · exact Or.inl ⟨(q, l), List.mem_cons_self _ _, ho⟩
        · rcases ih ⟨pl, hpl, ho⟩ with h | h
          · obtain ⟨pl2, hpl2, ho2⟩ := h
            exact Or.inl ⟨pl2, List.mem_cons_of_mem _ hpl2, ho2⟩
          · exact Or.inr h

theorem occ_addSampleOcc {pm : PlayerMaps} {s : Sample} {tl rl : String} {o : Occurrence} :
    (∃ pl ∈ (addSampleOcc pm s tl rl).2, o ∈ pl.2) →
      (∃ pl ∈ pm.2, o ∈ pl.2) ∨ o = mkOccurrence s tl rl := by
  rw [addSampleOcc_snd]
  exact occ_addDet

theorem occ_foldl_samples (samples : List Sample) (tl rl : String) (pm : PlayerMaps)
    {o : Occurrence} :
    (∃ pl ∈ (samples.foldl (fun pm2 s => addSampleOcc pm2 s tl rl) pm).2, o ∈ pl.2) →
      (∃ pl ∈ pm.2, o ∈ pl.2) ∨ ∃ s ∈ samples, o = mkOccurrence s tl rl := by
  induction samples generalizing pm with
  | nil => exact fun h => Or.inl h
  | cons s rest ih =>
      intro h
      rcases ih _ h with h2 | h2
      · rcases occ_addSampleOcc h2 with h3 | h3
        · exact Or.inl h3
        · exact Or.inr ⟨s, List.mem_cons_self _ _, h3⟩
      · obtain ⟨s2, hs2, he⟩ := h2
        exact Or.inr ⟨s2, List.mem_cons_of_mem _ hs2, he⟩

theorem occ_updatePlayer (st : SummaryState) (player : String) (samples : List Sample)
    (tl rl : String) {o : Occurrence} :
    occInState (updatePlayer st player samples tl rl) o →
      occInState st o ∨ ∃ s ∈ samples, o = mkOccurrence s tl rl := by
  induction st with
  | nil =>
      rintro ⟨e, he, hin⟩
      simp only [updatePlayer, List.mem_singleton] at he
      subst he
      rcases occ_foldl_samples samples tl rl ([], []) hin with h | h
      · obtain ⟨pl, hpl, -⟩ := h
        simp at hpl
      · exact Or.inr h
  | cons e0 rest ih =>
      obtain ⟨q, pm⟩ := e0
      by_cases hq : q = player
      · subst hq
        have heq : updatePlayer ((q, pm) :: rest) q samples tl rl
            = (q, samples.foldl (fun pm2 s => addSampleOcc pm2 s tl rl) pm) :: rest := by
          simp [updatePlayer]
        rw [heq]
        rintro ⟨e, he, hin⟩
        rcases List.mem_cons.mp he with rfl | he
        · rcases occ_foldl_samples samples tl rl pm hin with h | h
          · obtain ⟨pl, hpl, ho⟩ := h
            exact Or.inl ⟨(q, pm), List.mem_cons_self _ _, pl, hpl, ho⟩
          · exact Or.inr h
        · exact Or.inl ⟨e, List.mem_cons_of_mem _ he, hin⟩
      · have heq : updatePlayer ((q, pm) :: rest) player samples tl rl
            = (q, pm) :: updatePlayer rest player samples tl rl := by
          simp [updatePlayer, hq]
        rw [heq]
        rintro ⟨e, he, hin⟩
        rcases List.mem_cons.mp he with rfl | he
        · exact Or.inl ⟨(q, pm), List.mem_cons_self _ _, hin⟩
        · rcases ih ⟨e, he, hin⟩ with h | h
          · obtain ⟨e2, he2, hin2⟩ := h
            exact Or.inl ⟨e2, List.mem_cons_of_mem _ he2, hin2⟩
          · exact Or.inr h

theorem occ_foldl_players (pls : List (String × List Sample)) (tl rl : String)
    (st : SummaryState) {o : Occurrence} :
    occInState (pls.foldl (fun st2 pl => updatePlayer st2 pl.1 pl.2 tl rl) st) o →
      occInState st o ∨ ∃ pl ∈ pls, ∃ s ∈ pl.2, o = mkOccurrence s tl rl := by
  induction pls generalizing st with
  | nil => exact fun h => Or.inl h
  | cons pl rest ih =>
      intro h
      rcases ih _ h with h2 | h2
      · rcases occ_updatePlayer st pl.1 pl.2 tl rl h2 with h3 | h3
        · exact Or.inl h3
        · obtain ⟨s, hs, he⟩ := h3
          exact Or.inr ⟨pl, List.mem_cons_self _ _, s, hs, he⟩
      · obtain ⟨pl2, hpl2, hrest⟩ := h2
        exact Or.inr ⟨pl2, List.mem_cons_of_mem _ hpl2, hrest⟩

theorem occ_buildSummaryState (items : List HeatmapItem) {o : Occurrence} :
    occInState (buildSummaryState items) o → ∃ it ∈ items, occOfItem it o := by
  have hgen : ∀ (its : List HeatmapItem) (st : SummaryState),
      occInState (its.foldl processItem st) o →
        occInState st o ∨ ∃ it ∈ its, occOfItem it o := by
    intro its
    induction its with
    | nil => exact fun st h => Or.inl h
    | cons it rest ih =>
        intro st h
        rcases ih _ h with h2 | h2
        · rcases occ_foldl_players it.positions_by_player _ _ st h2 with h3 | h3
          · exact Or.inl h3
          · exact Or.inr ⟨it, List.mem_cons_self _ _, h3⟩
        · obtain ⟨it2, hit2, hocc⟩ := h2
          exact Or.inr ⟨it2, List.mem_cons_of_mem _ hit2, hocc⟩
  intro h
  rcases hgen items [] h with h2 | h2
  · obtain ⟨e, he, -⟩ := h2
    exact absurd he (List.not_mem_nil e)
  · exact h2

theorem occ_lookupD {m : List ((Int × Int × Int) × List Occurrence)}
    {p : Int × Int × Int} {o : Occurrence} (h : o ∈ lookupD m p []) :
    ∃ pl ∈ m, o ∈ pl.2 := by
  induction m with
  | nil => simp [lookupD] at h
  | cons e rest ih =>
      obtain ⟨q, l⟩ := e
      by_cases hq : q = p
      · subst hq
        simp only [lookupD, if_pos rfl] at h
        exact ⟨(q, l), List.mem_cons_self _ _, h⟩
      · simp only [lookupD, if_neg hq] at h
        obtain ⟨pl, hpl, ho⟩ := ih h
        exact ⟨pl, List.mem_cons_of_mem _ hpl, ho⟩

theorem roundSamplesChecked_provenance (t : TicksTable) (off : Int) (r : RoundRow)
    (s : List (String × Sample)) (h : roundSamplesChecked t off r = some s) :
    ∀ ns ∈ s, ∃ p ∈ t.rows, p.name = ns.1 ∧ p.side = ns.2.side
      ∧ p.round_num = ns.2.round_num ∧ p.X = some ns.2.x ∧ p.Y = some ns.2.y
      ∧ p.Z = some ns.2.z := by
  by_cases hres : resolvable r
  · obtain ⟨h1, h2⟩ := hres
    rw [Option.isSome_iff_exists] at h1 h2
    obtain ⟨rs, hrs⟩ := h1
    obtain ⟨re, hre⟩ := h2
    cases hc : hasRequiredCols t
    · rw [(roundSamplesChecked_none_iff t off r hc).mpr
        ⟨by simp [hrs], by simp [hre]⟩] at h
      exact Option.noConfusion h
    · have heq : roundSamplesChecked t off r
          = some ((fetchTickRows t r.round_num (targetTick rs re off)).filterMap
            (rowToSample r.round_num)) := by
        simp [roundSamplesChecked, hrs, hre, hc]
      rw [heq] at h
      injection h with h
      subst h
      intro ns hns
      obtain ⟨p, hp, hconv⟩ := List.mem_filterMap.mp hns
      have hp2 : p ∈ t.rows := List.mem_of_mem_filter hp
      have hmask := (List.mem_filter.mp hp).2
      simp only [decide_eq_true_eq] at hmask
      rcases hX : p.X with _ | x <;> rcases hY : p.Y with _ | y <;>
          rcases hZ : p.Z with _ | z <;>
          simp only [rowToSample, hX, hY, hZ] at hconv <;>
        first
          | exact Option.noConfusion hconv
          | (injection hconv with hconv
             subst hconv
             exact ⟨p, hp2, rfl, rfl, hmask.1, hX, hY, hZ⟩)
  · rw [roundSamplesChecked_unresolvable t off r hres] at h
    injection h with h
    subst h
    intro ns hns
    simp at hns

theorem markerSamples_provenance (t : TicksTable) (off : Int) (rounds : List RoundRow)
    (res : List (String × Sample)) (h : markerSamples t off rounds = some res) :
    ∀ ns ∈ res, ∃ p ∈ t.rows, p.name = ns.1 ∧ p.side = ns.2.side
      ∧ p.round_num = ns.2.round_num ∧ p.X = some ns.2.x ∧ p.Y = some ns.2.y
      ∧ p.Z = some ns.2.z := by
  induction rounds generalizing res with
  | nil =>
      simp only [markerSamples, Option.some.injEq] at h
      subst h
      intro ns hns
      simp at hns
  | cons r rest ih =>
      have hcons : markerSamples t off (r :: rest)
          = (roundSamplesChecked t off r).bind (fun s =>
              (markerSamples t off rest).bind (fun srest => some (s ++ srest))) := rfl
      rw [hcons] at h
      rcases hrc : roundSamplesChecked t off r with _ | s
      · rw [hrc] at h
        simp at h
      · rw [hrc] at h
        simp only [Option.some_bind] at h
        rcases hrest : markerSamples t off rest with _ | srest
        · rw [hrest] at h
          simp at h
        · rw [hrest] at h
          simp only [Option.some_bind, Option.some.injEq] at h
          subst h
          intro ns hns
          rcases List.mem_append.mp hns with hns | hns
          · exact roundSamplesChecked_provenance t off r s hrc ns hns
          · exact ih srest hrest ns hns

/-- C10: every occurrence record of the structured summary carries the round
number of the sample it was built from, unchanged — and every sample's
`round_num` is the round's (equal to the matched tick row's) original absolute
number, never the re-based or modulo-12-wrapped value, which exists only in
the rendering annotations.  The unknown-round marker can therefore never
appear in the summary's occurrence records. -/
theorem summaryRound_original_spec (items : List HeatmapItem) :
    (∀ ps ∈ buildJsonOutput items, ∀ pi ∈ ps.positions, ∀ o ∈ pi.occurrences,
      ∃ it ∈ items, ∃ pl ∈ it.positions_by_player, ∃ s ∈ pl.2,
        o.round = s.round_num ∧ o.side = s.side ∧ o.time_label = it.time_label
        ∧ o.range_label = it.range_label)
    ∧ (∀ (t : TicksTable) (off : Int) (rounds : List RoundRow)
          (res : List (String × Sample)), markerSamples t off rounds = some res →
        ∀ ns ∈ res, ∃ p ∈ t.rows, p.name = ns.1 ∧ p.side = ns.2.side
          ∧ p.round_num = ns.2.round_num ∧ p.X = some ns.2.x ∧ p.Y = some ns.2.y
          ∧ p.Z = some ns.2.z) := by
  constructor
  · intro ps hps pi hpi o ho
    unfold buildJsonOutput at hps
    obtain ⟨pe, hpe, rfl⟩ := List.mem_map.mp hps
    obtain ⟨pc, hpc, rfl⟩ := List.mem_map.mp hpi
    have ho2 : o ∈ lookupD pe.2.2 pc.1 [] :=
      (sortOccurrences_perm (lookupD pe.2.2 pc.1 [])).mem_iff.mp ho
    have hstate : occInState (buildSummaryState items) o := by
      obtain ⟨pl, hpl, hol⟩ := occ_lookupD ho2
      exact ⟨pe, hpe, pl, hpl, hol⟩
    obtain ⟨it, hit, pl, hpl, s, hs, heq⟩ := occ_buildSummaryState items hstate
    subst heq
    exact ⟨it, hit, pl, hpl, s, hs, rfl, rfl, rfl, rfl⟩
  · exact markerSamples_provenance

/-- Closed instance of `summaryRound_original_spec`: the single occurrence of
a one-sample run carries round 5 — the sample's own round number — and the
sample produced by a concrete tick lookup matches its source row's fields. -/
theorem summaryRound_original_spec_witness :
    (∃ it ∈ ([⟨"first_half", "L", "1m48s",
          [("p1", [⟨1, 2, 3, 5, "ct"⟩])]⟩] : List HeatmapItem),
      ∃ pl ∈ it.positions_by_player, ∃ s ∈ pl.2,
        (⟨5, "ct", "1m48s", "L"⟩ : Occurrence).round = s.round_num
        ∧ (⟨5, "ct", "1m48s", "L"⟩ : Occurrence).side = s.side
        ∧ (⟨5, "ct", "1m48s", "L"⟩ : Occurrence).time_label = it.time_label
        ∧ (⟨5, "ct", "1m48s", "L"⟩ : Occurrence).range_label = it.range_label)
    ∧ (∃ p ∈ (⟨requiredCols,
          [⟨"p1", some 1, some 2, some 3, 1, 1104, "ct"⟩]⟩ : TicksTable).rows,
        p.name = ("p1", (⟨1, 2, 3, 1, "ct"⟩ : Sample)).1
        ∧ p.side = ("p1", (⟨1, 2, 3, 1, "ct"⟩ : Sample)).2.side
        ∧ p.round_num = ("p1", (⟨1, 2, 3, 1, "ct"⟩ : Sample)).2.round_num
        ∧ p.X = some ("p1", (⟨1, 2, 3, 1, "ct"⟩ : Sample)).2.x
        ∧ p.Y = some ("p1", (⟨1, 2, 3, 1, "ct"⟩ : Sample)).2.y
        ∧ p.Z = some ("p1", (⟨1, 2, 3, 1, "ct"⟩ : Sample)).2.z) :=
  ⟨(summaryRound_original_spec
      [⟨"first_half", "L", "1m48s", [("p1", [⟨1, 2, 3, 5, "ct"⟩])]⟩]).1
      ⟨"p1", [⟨(1, 2, 3), 1, [⟨5, "ct", "1m48s", "L"⟩]⟩]⟩ (by decide)
      ⟨(1, 2, 3), 1, [⟨5, "ct", "1m48s", "L"⟩]⟩ (by decide)
      ⟨5, "ct", "1m48s", "L"⟩ (by decide),
   (summaryRound_original_spec []).2
      ⟨requiredCols, [⟨"p1", some 1, some 2, some 3, 1, 1104, "ct"⟩]⟩ 896
      [⟨1, some 1000, none, some 2000, none⟩] [("p1", ⟨1, 2, 3, 1, "ct"⟩)] (by decide)
      ("p1", ⟨1, 2, 3, 1, "ct"⟩) (by decide)⟩

end NadeStacked
